import Mathlib

/-!
Verification of the decorated transform pipeline in `src/index.js` of the
ts-primer repository.

The executable core of the repository is a single static method
`Ryazi.modifyNumbers(numbers) = numbers.map(n => n / 2)` wrapped by a method
decorator `square` that replaces the method with
`(...args) => original(args.flat().map(n => n ** 2))`, and a class decorator
`sealed` that calls `Object.seal` on the class and its prototype.

JavaScript numbers are modelled as rationals (`ℚ`): the spec describes the
pipeline over real numbers, and every arithmetic operation in the source
(squaring, halving) is exact on rationals.  A JavaScript argument of the
variadic call is either a single number or an array of numbers; `args.flat()`
flattens one level deep, exactly as in the source.
-/

namespace TsPrimer

/-- The original (undecorated) body of `Ryazi.modifyNumbers` from the source:
`numbers.map(n => n / 2)`. -/
def modifyNumbersOriginal (numbers : List ℚ) : List ℚ :=
  numbers.map (fun n => n / 2)

/-- One JavaScript argument of the variadic decorated call: either a bare
number or an array of numbers (the nesting `args.flat()` can remove). -/
inductive Arg : Type
  | num (n : ℚ)
  | arr (ns : List ℚ)
deriving DecidableEq

/-- `args.flat()` on the collected argument list: one-level-deep flattening,
as in the source. -/
def flatArgs (args : List Arg) : List ℚ :=
  args.flatMap fun a =>
    match a with
    | Arg.num n => [n]
    | Arg.arr ns => ns

/-- The `square` method decorator from the source: it replaces the wrapped
method by `(...args) => original(args.flat().map(n => n ** 2))`. -/
def square (original : List ℚ → List ℚ) : List Arg → List ℚ :=
  fun args => original ((flatArgs args).map (fun n => n ^ 2))

/-- The decorated `Ryazi.modifyNumbers`, as installed by
`__decorate([square], Ryazi, "modifyNumbers", null)`, applied to the raw
variadic argument list. -/
def modifyNumbersArgs : List Arg → List ℚ :=
  square modifyNumbersOriginal

/-- The decorated `Ryazi.modifyNumbers` invoked the way the source invokes it:
with a single array argument, `Ryazi.modifyNumbers(S)`. -/
def modifyNumbers (S : List ℚ) : List ℚ :=
  modifyNumbersArgs [Arg.arr S]

/-- Normal form of the single-array call: element-wise `n ↦ n ^ 2 / 2`. -/
theorem modifyNumbers_eq_map (S : List ℚ) :
    modifyNumbers S = S.map (fun n => n ^ 2 / 2) := by
  simp [modifyNumbers, modifyNumbersArgs, square, modifyNumbersOriginal,
    flatArgs, List.map_map, Function.comp]

/-- `getD` through a `map`, for the element-wise claims. -/
theorem getD_map_of_lt (f : ℚ → ℚ) (S : List ℚ) (i : ℕ) (hi : i < S.length) :
    (S.map f).getD i 0 = f (S.getD i 0) := by
  induction S generalizing i with
  | nil => simp at hi
  | cons a t ih =>
    cases i with
    | zero => simp [List.getD]
    | succ j =>
      simp only [List.map_cons, List.getD_cons_succ]
      exact ih j (by simpa using hi)

/-- C1: for every finite sequence `S` of numbers and every index `i` within
`S`, the decorated `modifyNumbers(S)` returns a sequence whose `i`-th element
equals `(S[i]^2) / 2`. -/
theorem c1_elementwise (S : List ℚ) (i : ℕ) (hi : i < S.length) :
    (modifyNumbers S).getD i 0 = (S.getD i 0) ^ 2 / 2 := by
  rw [modifyNumbers_eq_map]
  exact getD_map_of_lt _ S i hi

/-- C1 witness: the element-wise law instantiated at `S = [2, 3, 4]`, `i = 1`,
where the output element is `3 ^ 2 / 2 = 4.5`. -/
theorem c1_elementwise_witness :
    1 < ([2, 3, 4] : List ℚ).length ∧
      (modifyNumbers [2, 3, 4]).getD 1 0 = (([2, 3, 4] : List ℚ).getD 1 0) ^ 2 / 2 :=
  ⟨by norm_num, c1_elementwise [2, 3, 4] 1 (by norm_num)⟩

/-- C8: invoking the decorated `modifyNumbers` with the empty sequence returns
the empty sequence. -/
theorem c8_empty : modifyNumbers [] = [] := by
  rw [modifyNumbers_eq_map]
  rfl

/-- C5: `modifyNumbers` is not idempotent at `[2, 3, 4]`: applying it twice
gives `[2, 10.125, 32]`, different from the single application `[2, 4.5, 8]`. -/
theorem c5_not_idempotent :
    modifyNumbers (modifyNumbers [2, 3, 4]) ≠ modifyNumbers [2, 3, 4] := by
  simp only [modifyNumbers_eq_map, List.map_cons, List.map_nil]
  norm_num

/-- C3: `modifyNumbers` preserves the length of its input sequence. -/
theorem c3_length (S : List ℚ) : (modifyNumbers S).length = S.length := by
  rw [modifyNumbers_eq_map]
  exact List.length_map S _

/-! ## Refinement: the spec-side three-step pipeline (C2)

The following three definitions follow the wording of the spec, not the
source: flatten the collected argument list one level deep, square every
element, halve every element. -/

/-- Spec-side step 1: flatten the argument list one level deep into a single
flat sequence of numbers. -/
def flattenOneLevel (args : List Arg) : List ℚ :=
  args.flatMap fun a =>
    match a with
    | Arg.num n => [n]
    | Arg.arr ns => ns

/-- Spec-side step 2: square every element, `x ↦ x ^ 2`. -/
def squareAll (xs : List ℚ) : List ℚ :=
  xs.map (fun x => x ^ 2)

/-- Spec-side step 3: the halving operation, `x ↦ x / 2`. -/
def halve (xs : List ℚ) : List ℚ :=
  xs.map (fun x => x / 2)

/-- C2: the decorated `modifyNumbers` equals the composition of the three
spec steps in order: flatten one level deep, square every element, then the
original halving operation — for every variadic argument list. -/
theorem c2_pipeline (args : List Arg) :
    modifyNumbersArgs args = halve (squareAll (flattenOneLevel args)) := by
  simp [modifyNumbersArgs, square, modifyNumbersOriginal, flatArgs,
    halve, squareAll, flattenOneLevel]

/-- C7: `modifyNumbers` is total over numeric input: for every finite
sequence, a result sequence of the same length is returned (the embedding of
the source is a total function; no step of the source can fail on numeric
input). -/
theorem c7_total (S : List ℚ) :
    ∃ out : List ℚ, modifyNumbers S = out ∧ out.length = S.length :=
  ⟨modifyNumbers S, rfl, by rw [modifyNumbers_eq_map]; exact List.length_map S _⟩

/-- C10: every element of the output of `modifyNumbers` is non-negative,
regardless of the signs of the input elements. -/
theorem c10_nonneg (S : List ℚ) (i : ℕ) (hi : i < S.length) :
    0 ≤ (modifyNumbers S).getD i 0 := by
  rw [modifyNumbers_eq_map, getD_map_of_lt _ S i hi]
  exact div_nonneg (sq_nonneg _) (by norm_num)

/-- C10 witness: at `S = [-2]`, `i = 0`, the output element `2` is
non-negative. -/
theorem c10_nonneg_witness :
    0 < ([-2] : List ℚ).length ∧ 0 ≤ (modifyNumbers [-2]).getD 0 0 :=
  ⟨by norm_num, c10_nonneg [-2] 0 (by norm_num)⟩

/-! ## A heap model for purity and the frame property (C6, C9)

JavaScript arrays are heap objects.  To state that `modifyNumbers` mutates
nothing and returns a freshly allocated array, we model the fragment of the
heap the pipeline touches: the numeric arrays allocated so far, indexed by
allocation order.  `Array.prototype.map` and `Array.prototype.flat` read
their receiver and allocate a fresh array; neither writes an existing cell,
exactly as in the source. -/

/-- The numeric-array fragment of the JavaScript heap: arrays indexed by
allocation order. -/
structure Heap : Type where
  arrays : List (List ℚ)

/-- Read the array stored at reference `r` (a dangling reference reads as the
empty array). -/
def Heap.read (h : Heap) (r : ℕ) : List ℚ :=
  h.arrays.getD r []

/-- Allocate a fresh array: append it to the heap and return its reference. -/
def Heap.alloc (h : Heap) (a : List ℚ) : Heap × ℕ :=
  (⟨h.arrays ++ [a]⟩, h.arrays.length)

/-- `Array.prototype.map`: read the receiver at `r`, allocate a fresh array
with the mapped values; no existing cell is written. -/
def jsMap (h : Heap) (r : ℕ) (f : ℚ → ℚ) : Heap × ℕ :=
  h.alloc ((h.read r).map f)

/-- `args.flat()` for the single-array call `modifyNumbers(arrayAt r)`:
`[arrayAt r].flat()` reads the array at `r` and allocates a fresh one-level
flat copy. -/
def jsFlatSingle (h : Heap) (r : ℕ) : Heap × ℕ :=
  h.alloc (h.read r)

/-- The heap-level decorated `modifyNumbers`, invoked with the array stored
at `r`: flatten (fresh copy), square (fresh array), halve (fresh array). -/
def modifyNumbersST (h : Heap) (r : ℕ) : Heap × ℕ :=
  let p1 := jsFlatSingle h r
  let p2 := jsMap p1.1 p1.2 (fun n => n ^ 2)
  jsMap p2.1 p2.2 (fun n => n / 2)

/-- Reading the cell just allocated returns the allocated array. -/
theorem read_alloc_fresh (A : List (List ℚ)) (a : List ℚ) :
    (List.getD (A ++ [a]) A.length []) = a := by
  rw [List.getD_append_right A [a] [] A.length le_rfl]
  simp

/-- Execution of the heap-level pipeline: three fresh arrays are appended and
the reference of the last is returned. -/
theorem modifyNumbersST_eq (h : Heap) (r : ℕ) :
    modifyNumbersST h r =
      (⟨h.arrays ++ [h.read r, (h.read r).map (fun n => n ^ 2),
          ((h.read r).map (fun n => n ^ 2)).map (fun n => n / 2)]⟩,
        h.arrays.length + 2) := by
  show (jsMap (jsMap (jsFlatSingle h r).1 (jsFlatSingle h r).2 _).1
      (jsMap (jsFlatSingle h r).1 (jsFlatSingle h r).2 _).2 _) = _
  simp only [jsFlatSingle, jsMap, Heap.alloc, Heap.read]
  rw [read_alloc_fresh h.arrays (h.arrays.getD r [])]
  have h2 : (h.arrays ++ [h.arrays.getD r []]).length = h.arrays.length + 1 := by
    simp
  rw [h2, show h.arrays ++ [h.arrays.getD r []] ++ [(h.arrays.getD r []).map (fun n => n ^ 2)]
      = (h.arrays ++ [h.arrays.getD r []]) ++ [(h.arrays.getD r []).map (fun n => n ^ 2)] from rfl,
    ← h2, read_alloc_fresh]
  simp

/-- The value the heap-level pipeline returns is the pure `modifyNumbers` of
the value of its argument. -/
theorem readResult_eq (h : Heap) (r : ℕ) :
    (modifyNumbersST h r).1.read (modifyNumbersST h r).2 = modifyNumbers (h.read r) := by
  rw [modifyNumbersST_eq, modifyNumbers_eq_map]
  show List.getD (h.arrays ++ _) (h.arrays.length + 2) [] = _
  rw [List.getD_append_right _ _ _ _ (by omega)]
  simp [List.map_map, Function.comp, List.getD]

/-- C6: `modifyNumbers` is pure and deterministic: two invocations on heaps
holding equal argument values return equal values; each invocation returns
exactly the pure function of its own argument's value; and no pre-existing
heap cell is written (the heap is only extended with fresh arrays). -/
theorem c6_pure_deterministic (h₁ h₂ : Heap) (r₁ r₂ : ℕ)
    (hv : h₁.read r₁ = h₂.read r₂) :
    (modifyNumbersST h₁ r₁).1.read (modifyNumbersST h₁ r₁).2
        = (modifyNumbersST h₂ r₂).1.read (modifyNumbersST h₂ r₂).2
      ∧ (modifyNumbersST h₁ r₁).1.read (modifyNumbersST h₁ r₁).2
          = modifyNumbers (h₁.read r₁)
      ∧ ((modifyNumbersST h₁ r₁).1.arrays).take h₁.arrays.length = h₁.arrays := by
  refine ⟨?_, readResult_eq h₁ r₁, ?_⟩
  · rw [readResult_eq, readResult_eq, hv]
  · rw [modifyNumbersST_eq]
    exact List.take_left _ _

/-- C6 witness: two different heaps holding the value `[1, 2]` at different
references produce the same result, equal to `modifyNumbers [1, 2]`. -/
theorem c6_pure_deterministic_witness :
    (Heap.mk [[1, 2]]).read 0 = (Heap.mk [[3], [1, 2]]).read 1 ∧
      ((modifyNumbersST (Heap.mk [[1, 2]]) 0).1.read (modifyNumbersST (Heap.mk [[1, 2]]) 0).2
          = (modifyNumbersST (Heap.mk [[3], [1, 2]]) 1).1.read
              (modifyNumbersST (Heap.mk [[3], [1, 2]]) 1).2
        ∧ (modifyNumbersST (Heap.mk [[1, 2]]) 0).1.read (modifyNumbersST (Heap.mk [[1, 2]]) 0).2
            = modifyNumbers ((Heap.mk [[1, 2]]).read 0)
        ∧ ((modifyNumbersST (Heap.mk [[1, 2]]) 0).1.arrays).take
            (Heap.mk [[1, 2]]).arrays.length = (Heap.mk [[1, 2]]).arrays) :=
  ⟨rfl, c6_pure_deterministic (Heap.mk [[1, 2]]) (Heap.mk [[3], [1, 2]]) 0 1 rfl⟩

/-- `getD` on a list whose members all equal the default returns the
default. -/
theorem getD_all_default {α : Type} (d : α) (l : List α)
    (hl : ∀ x ∈ l, x = d) (j : ℕ) : l.getD j d = d := by
  induction l generalizing j with
  | nil => simp [List.getD]
  | cons a t ih =>
    cases j with
    | zero => simpa using hl a (by simp)
    | succ k =>
      rw [List.getD_cons_succ]
      exact ih (fun x hx => hl x (by simp [hx])) k

/-- C9: `modifyNumbers` does not mutate its argument: after the call, the
argument reference still reads the same array; every pre-existing heap cell
is unchanged; and the returned reference is freshly allocated (outside the
pre-existing heap). -/
theorem c9_no_mutation (h : Heap) (r : ℕ) :
    (modifyNumbersST h r).1.read r = h.read r
      ∧ ((modifyNumbersST h r).1.arrays).take h.arrays.length = h.arrays
      ∧ h.arrays.length ≤ (modifyNumbersST h r).2 := by
  rw [modifyNumbersST_eq]
  refine ⟨?_, List.take_left _ _, by omega⟩
  by_cases hr : r < h.arrays.length
  · exact List.getD_append _ _ _ _ hr
  · push_neg at hr
    have hread : h.read r = [] := List.getD_eq_default _ _ hr
    show List.getD (h.arrays ++ _) r [] = h.read r
    rw [hread, List.getD_append_right _ _ _ _ hr]
    exact getD_all_default [] _ (by simp [hread]) _

/-! ## The sealed container (C4)

The `sealed` class decorator in the source calls `Object.seal` on the class
and its prototype, and `__decorate([sealed], Ryazi)` applies it.  The
enforcement behaviour of `Object.seal` itself is a JavaScript builtin, not
code of this repository, so the structural state of the container and the
rejection of post-seal modification are modelled from the spec. -/

/-- Modelled from the spec: the in-scope failure class, a
structural-configuration violation on a sealed container (missing from src:
the enforcement semantics of the `Object.seal` builtin). -/
inductive ConfigError : Type
  | sealedViolation
deriving DecidableEq

/-- Modelled from the spec: a class-like container with a named member set
and a structural seal flag (missing from src: the object model behind the
`Object.seal` builtin). -/
structure Container : Type where
  members : List (String × (List ℚ → List ℚ))
  isSealed : Bool

/-- The `sealed` class decorator from the source: seal the container's
structure. -/
def sealed (c : Container) : Container :=
  { c with isSealed := true }

/-- Modelled from the spec: attaching a new operation to a sealed container
is rejected with a configuration error, synchronously at the attempt site. -/
def addMember (c : Container) (name : String) (op : List ℚ → List ℚ) :
    Except ConfigError Container :=
  if c.isSealed then Except.error ConfigError.sealedViolation
  else Except.ok { c with members := c.members ++ [(name, op)] }

/-- Modelled from the spec: removing a member of a sealed container is
rejected with a configuration error. -/
def removeMember (c : Container) (name : String) : Except ConfigError Container :=
  if c.isSealed then Except.error ConfigError.sealedViolation
  else Except.ok { c with members := c.members.filter (fun m => !(m.1 == name)) }

/-- Modelled from the spec: reconfiguring a member of a sealed container is
rejected with a configuration error. -/
def reconfigureMember (c : Container) (name : String) (op : List ℚ → List ℚ) :
    Except ConfigError Container :=
  if c.isSealed then Except.error ConfigError.sealedViolation
  else Except.ok { c with members := c.members.map (fun m => if m.1 == name then (name, op) else m) }

/-- Invoking a named member of the container on an input sequence. -/
def invoke (c : Container) (name : String) (input : List ℚ) : Option (List ℚ) :=
  (c.members.find? (fun m => m.1 == name)).map (fun m => m.2 input)

/-- The `Ryazi` container before the `sealed` class decorator runs: it holds
the (already method-decorated) `modifyNumbers` operation. -/
def ryaziBase : Container :=
  ⟨[("modifyNumbers", modifyNumbers)], false⟩

/-- The `Ryazi` container after `__decorate([sealed], Ryazi)`. -/
def Ryazi : Container :=
  sealed ryaziBase

/-- C4: after sealing, every attempt to add, remove, or reconfigure a member
of the container is rejected with a configuration error at the attempt site,
while invoking the existing `modifyNumbers` member still returns exactly what
it returned before sealing. -/
theorem c4_sealed_rejects (name : String) (op : List ℚ → List ℚ) (S : List ℚ) :
    addMember Ryazi name op = Except.error ConfigError.sealedViolation
      ∧ removeMember Ryazi name = Except.error ConfigError.sealedViolation
      ∧ reconfigureMember Ryazi name op = Except.error ConfigError.sealedViolation
      ∧ invoke Ryazi "modifyNumbers" S = invoke ryaziBase "modifyNumbers" S
      ∧ invoke Ryazi "modifyNumbers" S = some (modifyNumbers S) :=
  ⟨rfl, rfl, rfl, rfl, rfl⟩

end TsPrimer
